import Mathlib

/-!
Verification development for the ORCA vibrational-analysis post-processing
script (`orca_vib_analysis.py`).

Modelling conventions:
* A text line is a `List Char` (Python `str`); `splitlines` output carries no
  trailing newline.
* Python `float` values are modelled as exact rationals `ℚ`.  Decimal string
  parsing and two-decimal formatting are exact on `ℚ`; the IEEE-754 rounding
  noise of the running program is below every threshold the program compares
  against (the 0.05 matching tolerance is modelled as `1/20`).
* The regular expressions of the script use only character classes that are
  disjoint at every group boundary (digits/dots vs whitespace vs fixed
  literals), so greedy maximal-munch scanning without backtracking computes
  exactly the Python `re.match` result; the matchers below are written in
  that style.  The one place where backtracking is observable (trailing
  whitespace after the contribution type token) is modelled explicitly.
* Fallible Python code (`float(...)` raising `ValueError`) is modelled with
  `Except`.
-/

set_option maxHeartbeats 1000000
set_option maxRecDepth 2000

abbrev Line := List Char

/-- String literal convenience: a Python `str` literal as a `List Char`. -/
def lit (s : String) : Line := s.toList

/-- Python `\s` on ASCII input (the whitespace class used by `re` and `str.strip`). -/
def pyIsSpace (c : Char) : Bool :=
  c = ' ' || c = '\t' || c = '\n' || c = '\r' || c = '\x0b' || c = '\x0c'

/-- The character class `[\d.]` of the frequency/intensity capture groups. -/
def isDigitDot (c : Char) : Bool := c.isDigit || c = '.'

/-- The character class `\w` (ASCII model) of the contribution-type group. -/
def pyIsWord (c : Char) : Bool := c.isAlphanum || c = '_'

/-- Python `str.strip()`: drop leading and trailing whitespace. -/
def pyStrip (s : Line) : Line :=
  ((s.dropWhile pyIsSpace).reverse.dropWhile pyIsSpace).reverse

/-- Python `str.startswith(pre)`. -/
def startsWithChars : Line → Line → Bool
  | [], _ => true
  | _ :: _, [] => false
  | p :: ps, c :: cs => p = c && startsWithChars ps cs

/-- Python `needle in hay` substring containment. -/
def containsSub (needle : Line) : Line → Bool
  | [] => startsWithChars needle []
  | c :: rest => startsWithChars needle (c :: rest) || containsSub needle rest

/-- Numeric value of a decimal digit character. -/
def digitVal (c : Char) : ℕ := c.toNat - 48

/-- The decimal digit character for `n < 10`. -/
def digitChar (n : ℕ) : Char :=
  if n = 0 then '0' else if n = 1 then '1' else if n = 2 then '2'
  else if n = 3 then '3' else if n = 4 then '4' else if n = 5 then '5'
  else if n = 6 then '6' else if n = 7 then '7' else if n = 8 then '8' else '9'

/-- Value of a digit run, as `int(...)` computes it on a `\d+` capture. -/
def digitsToNat (ds : Line) : ℕ := ds.foldl (fun n c => 10 * n + digitVal c) 0

/-- Decimal representation of a natural number (Python `str`/`f"{n}"`). -/
def natToChars (n : ℕ) : Line :=
  if _ : n < 10 then [digitChar n]
  else natToChars (n / 10) ++ [digitChar (n % 10)]
decreasing_by exact Nat.div_lt_self (by omega) (by omega)

/-- Python `float(s)` on a `[\d.]+` capture: at most one dot, at least one
digit, value read exactly into `ℚ`; `none` models the `ValueError` raise. -/
def pyFloatDD (s : Line) : Option ℚ :=
  let intpart := s.takeWhile Char.isDigit
  match s.dropWhile Char.isDigit with
  | [] => if intpart = [] then none else some (digitsToNat intpart)
  | '.' :: rest =>
    if rest.all Char.isDigit then
      if intpart = [] && rest = [] then none
      else some ((digitsToNat intpart : ℚ) + (digitsToNat rest : ℚ) / (10 ^ rest.length))
    else none
  | _ => none

/-- Exponent suffix of a Python float literal: optional sign then digits. -/
def pyFloatExp (m : ℚ) (es : Line) : Option ℚ :=
  match es with
  | '+' :: ds => if ds ≠ [] && ds.all Char.isDigit then some (m * (10 : ℚ) ^ (digitsToNat ds : ℤ)) else none
  | '-' :: ds => if ds ≠ [] && ds.all Char.isDigit then some (m * (10 : ℚ) ^ (-(digitsToNat ds : ℤ))) else none
  | ds => if ds ≠ [] && ds.all Char.isDigit then some (m * (10 : ℚ) ^ (digitsToNat ds : ℤ)) else none

/-- Python `float(s)` on unsigned free-form input: decimal mantissa with
optional exponent.  Exotic accepted forms (`inf`, `nan`, digit-group
underscores) are outside the modelled input space. -/
def pyFloatCore (s : Line) : Option ℚ :=
  let mant := s.takeWhile isDigitDot
  let rest := s.dropWhile isDigitDot
  match pyFloatDD mant with
  | none => none
  | some m =>
    match rest with
    | [] => some m
    | 'e' :: es => pyFloatExp m es
    | 'E' :: es => pyFloatExp m es
    | _ => none

/-- Python `float(s)` including optional leading sign and surrounding
whitespace (which `float` itself strips). -/
def pyFloat (s : Line) : Option ℚ :=
  match pyStrip s with
  | '+' :: rest => pyFloatCore rest
  | '-' :: rest => (pyFloatCore rest).map (fun q => -q)
  | rest => pyFloatCore rest

/-- Python `str.split(sep)` for a one-character separator (keeps empties). -/
def pySplitChar (sep : Char) : Line → List Line
  | [] => [[]]
  | c :: rest =>
    if c = sep then [] :: pySplitChar sep rest
    else
      match pySplitChar sep rest with
      | [] => [[c]]
      | p :: ps => (c :: p) :: ps

/-- Worker for `pySplitWs`: `cur` holds the current token reversed. -/
def pySplitWsAux (cur : Line) : Line → List Line
  | [] => if cur = [] then [] else [cur.reverse]
  | c :: rest =>
    if pyIsSpace c then
      if cur = [] then pySplitWsAux [] rest
      else cur.reverse :: pySplitWsAux [] rest
    else pySplitWsAux (c :: cur) rest

/-- Python `str.split()` (no separator): split on whitespace runs, dropping
empty fields. -/
def pySplitWs (s : Line) : List Line := pySplitWsAux [] s

/-- Python `str.upper()` (ASCII model). -/
def toUpperChars (s : Line) : Line := s.map Char.toUpper

/-- Two-digit zero-padded decimal representation of `k < 100`. -/
def pad2 (k : ℕ) : Line := if k < 10 then '0' :: natToChars k else natToChars k

/-- `round(x * 100)`: the integer count of hundredths behind `f"{x:.2f}"`.
Mathlib `round` rounds half up; Python rounds the binary double to even,
and the two agree away from exact decimal ties, the only regime the
program exercises. -/
def cents (q : ℚ) : ℤ := round (q * 100)

/-- Python `f"{q:.2f}"` for the nonnegative values the script formats. -/
def format2 (q : ℚ) : Line :=
  natToChars ((cents q).toNat / 100) ++ '.' :: pad2 ((cents q).toNat % 100)

/-- Python `", ".join`-style join with an arbitrary separator. -/
def joinSep (sep : Line) : List Line → Line
  | [] => []
  | [x] => x
  | x :: xs => x ++ sep ++ joinSep sep xs

/-! ## Regex matchers

`pat = re.compile(r'\s*(\d+):\s*([\d.]+)\s+\S+\s+([\d.]+)')` (IR spectrum
record, `parse_orca_ir`) and
`pat_mode = re.compile(r'\s*Mode\s+(\d+):\s*([\d.]+)\s*cm-1\s*\(IR:\s*([\d.]+)\)')`
(mode header, `replace_vmard_ir` and `parse_aligned_nma` share the identical
pattern), applied with `re.match` (anchored at the line start, no end
anchor).  Captures are returned raw; callers convert with `int`/`float`. -/

/-- `re.match` of the IR-spectrum record pattern: mode index, frequency
capture, intensity capture (the unit token is matched and discarded). -/
def matchSpectrum (s : Line) : Option (ℕ × Line × Line) :=
  let s1 := s.dropWhile pyIsSpace
  let ds := s1.takeWhile Char.isDigit
  let s2 := s1.dropWhile Char.isDigit
  if ds = [] then none else
  match s2 with
  | ':' :: s3 =>
    let s4 := s3.dropWhile pyIsSpace
    let g2 := s4.takeWhile isDigitDot
    let s5 := s4.dropWhile isDigitDot
    if g2 = [] then none else
    let sp := s5.takeWhile pyIsSpace
    let s6 := s5.dropWhile pyIsSpace
    if sp = [] then none else
    let tok := s6.takeWhile (fun c => !pyIsSpace c)
    let s7 := s6.dropWhile (fun c => !pyIsSpace c)
    if tok = [] then none else
    let sp2 := s7.takeWhile pyIsSpace
    let s8 := s7.dropWhile pyIsSpace
    if sp2 = [] then none else
    let g3 := s8.takeWhile isDigitDot
    if g3 = [] then none else
    some (digitsToNat ds, g2, g3)
  | _ => none

/-- Consume an expected literal prefix. -/
def expectLit : Line → Line → Option Line
  | [], s => some s
  | _ :: _, [] => none
  | p :: ps, c :: cs => if p = c then expectLit ps cs else none

/-- `re.match` of the mode-header pattern
`\s*Mode\s+(\d+):\s*([\d.]+)\s*cm-1\s*\(IR:\s*([\d.]+)\)`: mode index,
frequency capture, IR-intensity capture. -/
def matchModeHeader (s : Line) : Option (ℕ × Line × Line) :=
  let s1 := s.dropWhile pyIsSpace
  match expectLit (lit "Mode") s1 with
  | none => none
  | some s2 =>
    let sp := s2.takeWhile pyIsSpace
    let s3 := s2.dropWhile pyIsSpace
    if sp = [] then none else
    let ds := s3.takeWhile Char.isDigit
    let s4 := s3.dropWhile Char.isDigit
    if ds = [] then none else
    match s4 with
    | ':' :: s5 =>
      let s6 := s5.dropWhile pyIsSpace
      let g2 := s6.takeWhile isDigitDot
      let s7 := s6.dropWhile isDigitDot
      if g2 = [] then none else
      let s8 := s7.dropWhile pyIsSpace
      match expectLit (lit "cm-1") s8 with
      | none => none
      | some s9 =>
        let s10 := s9.dropWhile pyIsSpace
        match expectLit (lit "(IR:") s10 with
        | none => none
        | some s11 =>
          let s12 := s11.dropWhile pyIsSpace
          let g3 := s12.takeWhile isDigitDot
          let s13 := s12.dropWhile isDigitDot
          if g3 = [] then none else
          match s13 with
          | ')' :: _ => some (digitsToNat ds, g2, g3)
          | _ => none
    | _ => none

/-- `re.match` of the contribution pattern
`\s*[+-]?([\d.]+)\s+\(\s*([\d.]+)%\)\s+(\w+)\s+(.+)`: weight-magnitude
capture, percentage capture, type token, free-form remainder.  When the
remainder after the maximal whitespace run is empty but that run has at
least two characters, the engine backtracks `\s+` by one and `(.+)` captures
the run's last whitespace character. -/
def matchContrib (s : Line) : Option (Line × Line × Line × Line) :=
  let s1 := s.dropWhile pyIsSpace
  let s2 := match s1 with
    | '+' :: r => r
    | '-' :: r => r
    | r => r
  let g1 := s2.takeWhile isDigitDot
  let s3 := s2.dropWhile isDigitDot
  if g1 = [] then none else
  let sp := s3.takeWhile pyIsSpace
  let s4 := s3.dropWhile pyIsSpace
  if sp = [] then none else
  match s4 with
  | '(' :: s5 =>
    let s6 := s5.dropWhile pyIsSpace
    let g2 := s6.takeWhile isDigitDot
    let s7 := s6.dropWhile isDigitDot
    if g2 = [] then none else
    match s7 with
    | '%' :: ')' :: s8 =>
      let sp2 := s8.takeWhile pyIsSpace
      let s9 := s8.dropWhile pyIsSpace
      if sp2 = [] then none else
      let g3 := s9.takeWhile pyIsWord
      let s10 := s9.dropWhile pyIsWord
      if g3 = [] then none else
      let sp3 := s10.takeWhile pyIsSpace
      let g4 := s10.dropWhile pyIsSpace
      if sp3 = [] then none else
      if g4 ≠ [] then some (g1, g2, g3, g4)
      else if 2 ≤ sp3.length then some (g1, g2, g3, [sp3.getLastD ' '])
      else none
    | _ => none
  | _ => none

/-! ## Spectrum extractor (`parse_orca_ir`) -/

/-- One extracted IR spectrum record value. -/
structure OrcaMode where
  freq : ℚ
  ir : ℚ
  deriving DecidableEq, Repr

/-- The `ValueError` raises of `parse_orca_ir`, told apart by message. -/
inductive OrcaErr where
  /-- "IR SPECTRUM section not found in ORCA output." -/
  | sectionNotFound
  /-- "No IR modes found in the 'IR SPECTRUM' section matching the expected pattern." -/
  | noModesFound
  /-- `float()` raised on a capture such as `5..5` (uncaught `ValueError`). -/
  | floatError
  deriving DecidableEq, Repr

/-- `start = next((i for i, ln in enumerate(lines) if ln.strip().startswith("IR SPECTRUM")), None)` -/
def findStart (lines : List Line) : Option ℕ :=
  lines.findIdx? (fun ln => startsWithChars (lit "IR SPECTRUM") (pyStrip ln))

/-- The footer phrase ending the IR SPECTRUM section. -/
def footerPhrase : Line := lit "Maximum memory used throughout the entire PROP-calculation"

/-- Line `k` of the input (`lines[k]`), total ordering as in the source. -/
def getLn (lines : List Line) (k : ℕ) : Line := (lines.get? k).getD []

/-- The fallback end-of-section condition tested at index `k`:
`(len(lines[k].strip()) == 0 and len(lines[k+1].strip()) > 0 if k+1 < len(lines) else False)
 or lines[k].strip().startswith(("---", "**********"))`. -/
def fallbackCond (lines : List Line) (k : ℕ) : Bool :=
  (if k + 1 < lines.length then
    (pyStrip (getLn lines k)).length = 0 && 0 < (pyStrip (getLn lines (k + 1))).length
  else false)
  || startsWithChars (lit "---") (pyStrip (getLn lines k))
  || startsWithChars (lit "**********") (pyStrip (getLn lines k))

/-- `end` of the IR SPECTRUM window: first footer line at or after `start`,
else the first fallback separator after `start`, else end of input. -/
def findEnd (lines : List Line) (start : ℕ) : ℕ :=
  match (List.range' start (lines.length - start)).find?
      (fun j => containsSub footerPhrase (getLn lines j)) with
  | some j => j
  | none =>
    match (List.range' (start + 1) (lines.length - (start + 1))).find?
        (fun k => fallbackCond lines k) with
    | some k => k
    | none => lines.length

/-- The record a window line yields, if any: pattern match then
`int`/`float` conversion of the captures (`none` in the second component of
the sum models the `float` raise). -/
def lineRecord (ln : Line) : Option (ℕ × Option OrcaMode) :=
  match matchSpectrum ln with
  | none => none
  | some (idx, g2, g3) =>
    match pyFloatDD g2, pyFloatDD g3 with
    | some f, some i => some (idx, some ⟨f, i⟩)
    | _, _ => some (idx, none)

/-- `orca[idx] = {...}`: Python dict insertion — an existing key keeps its
position and takes the new value, a fresh key is appended. -/
def dictInsert (k : ℕ) (v : OrcaMode) : List (ℕ × OrcaMode) → List (ℕ × OrcaMode)
  | [] => [(k, v)]
  | (k', v') :: rest => if k' = k then (k', v) :: rest else (k', v') :: dictInsert k v rest

/-- Processing of one window line in the extraction loop. -/
def orcaStep (acc : List (ℕ × OrcaMode)) (ln : Line) : Except OrcaErr (List (ℕ × OrcaMode)) :=
  match lineRecord ln with
  | none => .ok acc
  | some (_, none) => .error .floatError
  | some (idx, some v) => .ok (dictInsert idx v acc)

/-- `parse_orca_ir`: locate the section, bound the window, collect records,
fail when the label or all records are missing. -/
def parse_orca_ir (lines : List Line) : Except OrcaErr (List (ℕ × OrcaMode)) :=
  match findStart lines with
  | none => .error .sectionNotFound
  | some start => do
    let stop := findEnd lines start
    let window := (lines.drop start).take (stop - start)
    let orca ← window.foldlM orcaStep []
    if orca = [] then .error .noModesFound else .ok orca

/-! ## Report merger (`replace_vmard_ir`)

`orca_modes` is a Python dict; iteration and deletion follow insertion
order, so it is modelled as an association list with (invariantly) unique
keys.  `for o_idx, v_data in list(remaining_orca_modes.items()): if
abs(v_data["freq"] - freq) < 0.05: match_key = o_idx; break` followed by a
dict lookup of `match_key` is, under key uniqueness, the first
within-tolerance entry. -/

/-- The matching tolerance `0.05` of `replace_vmard_ir`. -/
def tol : ℚ := 1 / 20

/-- First remaining record whose frequency lies within tolerance. -/
def findMatch (freq : ℚ) (rem : List (ℕ × OrcaMode)) : Option (ℕ × OrcaMode) :=
  rem.find? (fun p => decide (|p.2.freq - freq| < tol))

/-- `del remaining_orca_modes[match_key]`: remove the entry with that key. -/
def eraseKey (k : ℕ) : List (ℕ × OrcaMode) → List (ℕ × OrcaMode)
  | [] => []
  | p :: rest => if p.1 = k then rest else p :: eraseKey k rest

/-- `f"Mode {vm_mode}:  {freq:.2f} cm-1 (IR: {irv:.2f})"`. -/
def emitLine (vm : ℕ) (freq irv : ℚ) : Line :=
  lit "Mode " ++ natToChars vm ++ lit ":  " ++ format2 freq ++
  lit " cm-1 (IR: " ++ format2 irv ++ lit ")"

/-- The line-rewriting loop of `replace_vmard_ir`: returns the output lines
and the records still unconsumed; `.error` models the uncaught `ValueError`
of `float(m.group(2))` on a capture with misplaced dots. -/
def replaceVmardIr : List Line → List (ℕ × OrcaMode) →
    Except Unit (List Line × List (ℕ × OrcaMode))
  | [], rem => .ok ([], rem)
  | ln :: rest, rem =>
    match matchModeHeader ln with
    | none =>
      match replaceVmardIr rest rem with
      | .error e => .error e
      | .ok (out, rem') => .ok (ln :: out, rem')
    | some (vm, g2, _) =>
      match pyFloatDD g2 with
      | none => .error ()
      | some freq =>
        match findMatch freq rem with
        | none =>
          match replaceVmardIr rest rem with
          | .error e => .error e
          | .ok (out, rem') => .ok (ln :: out, rem')
        | some (k, v) =>
          match replaceVmardIr rest (eraseKey k rem) with
          | .error e => .error e
          | .ok (out, rem') => .ok (emitLine vm freq v.ir :: out, rem')

/-! ## Report parser (`parse_aligned_nma`) -/

/-- One contribution sub-record. -/
structure Contrib where
  type : Line
  atoms : List Line
  weight : ℚ
  deriving DecidableEq, Repr

/-- One parsed vibrational mode record. -/
structure ModeRec where
  Mode : ℕ
  Freq : ℚ
  IR : ℚ
  Contrib : List Contrib
  deriving DecidableEq, Repr

/-- Append a contribution to the most recent mode (`modes[-1]`); the newest
mode sits at the head of the reversed accumulator. -/
def addContrib (c : Contrib) : List ModeRec → List ModeRec
  | [] => []
  | m :: ms => { m with Contrib := m.Contrib ++ [c] } :: ms

/-- One line of the `parse_aligned_nma` loop over the reversed accumulator;
`.error` models an uncaught `float` `ValueError` on a capture. -/
def paStep (acc : List ModeRec) (ln : Line) : Except Unit (List ModeRec) :=
  match matchModeHeader ln with
  | some (idx, g2, g3) =>
    match pyFloatDD g2, pyFloatDD g3 with
    | some freq, some ir => .ok (⟨idx, freq, ir, []⟩ :: acc)
    | _, _ => .error ()
  | none =>
    if (startsWithChars (lit "+") (pyStrip ln) || startsWithChars (lit "-") (pyStrip ln))
        && acc ≠ [] then
      match matchContrib ln with
      | some (_, g2, g3, g4) =>
        match pyFloatDD g2 with
        | some pct => .ok (addContrib ⟨g3, pySplitWs g4, pct / 100⟩ acc)
        | none => .error ()
      | none => .ok acc
    else .ok acc

/-- `parse_aligned_nma` on the file's lines; the final `ValueError` when no
mode was found is the `.error` of the empty case. -/
def parseAlignedNma (lines : List Line) : Except Unit (List ModeRec) := do
  let acc ← lines.foldlM paStep []
  if acc = [] then .error () else .ok acc.reverse

/-! ## Aggregator (`calc_counts_and_top`) -/

/-- `key = 'TORSION' if c['type'].upper() == 'TORSION' else c['type'].upper()`. -/
def bucketKey (t : Line) : Line :=
  if toUpperChars t = lit "TORSION" then lit "TORSION" else toUpperChars t

/-- `cnt = {'BOND': 0, 'ANGLE': 0, 'OUT': 0, 'TORSION': 0}`. -/
def cntInit : List (Line × ℕ) :=
  [(lit "BOND", 0), (lit "ANGLE", 0), (lit "OUT", 0), (lit "TORSION", 0)]

/-- `cnt[key] = cnt.get(key, 0) + 1` on the ordered dict model. -/
def bump (key : Line) : List (Line × ℕ) → List (Line × ℕ)
  | [] => [(key, 1)]
  | (k, n) :: rest => if k = key then (k, n + 1) :: rest else (k, n) :: bump key rest

/-- The per-mode counting loop. -/
def calcCnt (contribs : List Contrib) : List (Line × ℕ) :=
  contribs.foldl (fun cnt c => bump (bucketKey c.type) cnt) cntInit

/-- `cnt.get(key, 0)`. -/
def lookupCnt (cnt : List (Line × ℕ)) (key : Line) : ℕ :=
  ((cnt.find? (fun p => p.1 = key)).map Prod.snd).getD 0

/-- Stable insertion of one element into a weight-descending sorted list:
the element goes after every element of greater-or-equal weight. -/
def insertDesc (c : Contrib) : List Contrib → List Contrib
  | [] => [c]
  | x :: xs => if x.weight < c.weight then c :: x :: xs else x :: insertDesc c xs

/-- `sorted(m['Contrib'], key=lambda x: x['weight'], reverse=True)`: a
stable descending sort (Python's sort is stable; sortedness plus stability
determine the result, so stable insertion sort computes it). -/
def sortDesc (l : List Contrib) : List Contrib :=
  l.foldl (fun acc c => insertDesc c acc) []

/-- `f"{c['type']}({' '.join(c['atoms'])}):{c['weight']:.2f}"`. -/
def renderContrib (c : Contrib) : Line :=
  c.type ++ lit "(" ++ joinSep (lit " ") c.atoms ++ lit "):" ++ format2 c.weight

/-- `"; ".join(... for c in top)` over the top-`n` contributions. -/
def topStr (topn : ℕ) (contribs : List Contrib) : Line :=
  joinSep (lit "; ") (((sortDesc contribs).take topn).map renderContrib)

/-- One row of the result `DataFrame`; fields in column order
`Mode, Freq_cm-1, IR_Intensity_km/mol, BOND_Contribs, ANGLE_Contribs,
OUT_Contribs, TORSION_Contribs, Top_Contributions`. -/
structure ResultRow where
  Mode : ℕ
  Freq : Line
  IR : Line
  BOND : ℕ
  ANGLE : ℕ
  OUT : ℕ
  TORSION : ℕ
  Top : Line
  deriving DecidableEq, Repr

/-- The row built for one mode by `calc_counts_and_top`. -/
def calcRow (topn : ℕ) (m : ModeRec) : ResultRow :=
  let cnt := calcCnt m.Contrib
  { Mode := m.Mode
    Freq := format2 m.Freq
    IR := format2 m.IR
    BOND := lookupCnt cnt (lit "BOND")
    ANGLE := lookupCnt cnt (lit "ANGLE")
    OUT := lookupCnt cnt (lit "OUT")
    TORSION := lookupCnt cnt (lit "TORSION")
    Top := topStr topn m.Contrib }

/-- `calc_counts_and_top(modes, topn)` as the list of rows of its DataFrame. -/
def calc_counts_and_top (modes : List ModeRec) (topn : ℕ) : List ResultRow :=
  modes.map (calcRow topn)

/-! ## Frequency filter (the `'f'` branch of `prompt_filter`)

The branch is a function of the string the user enters (`input(...)`); the
whole branch body sits in a `try: ... except ValueError: return df`, so any
`ValueError` (range unpack of `split('-')`, a `float(...)` call, or the
`astype(float)` column conversion) returns the DataFrame unchanged. -/

/-- Parsed float column `df['Freq_cm-1'].astype(float)`; `none` models the
`ValueError` of an unparseable cell. -/
def rowFreqs (rows : List ResultRow) : Option (List ℚ) :=
  rows.mapM (fun r => pyFloat r.Freq)

/-- `df[(col >= f_start) & (col <= f_end)]`. -/
def keepRange (a b : ℚ) (rows : List ResultRow) (fs : List ℚ) : List ResultRow :=
  ((rows.zip fs).filter (fun p => decide (a ≤ p.2 ∧ p.2 ≤ b))).map Prod.fst

/-- `df[col.isin(freqs)]`. -/
def keepIsin (freqs : List ℚ) (rows : List ResultRow) (fs : List ℚ) : List ResultRow :=
  ((rows.zip fs).filter (fun p => decide (p.2 ∈ freqs))).map Prod.fst

/-- The `'f'` branch of `prompt_filter`, given the entered string `raw`
(stripped on entry, as the source does) and the current rows. -/
def freqFilter (raw : Line) (rows : List ResultRow) : List ResultRow :=
  let freq_input := pyStrip raw
  if freq_input = [] then rows
  else if freq_input.contains '-' then
    match pySplitChar '-' freq_input with
    | [a, b] =>
      match pyFloat (pyStrip a), pyFloat (pyStrip b), rowFreqs rows with
      | some fa, some fb, some fs => keepRange fa fb rows fs
      | _, _, _ => rows
    | _ => rows
  else
    let parts := ((pySplitChar ',' freq_input).map pyStrip).filter (fun x => x ≠ [])
    match parts.mapM pyFloat, rowFreqs rows with
    | some freqs, some fs => keepIsin freqs rows fs
    | _, _ => rows

/-! ## Export (`export_results`) -/

/-- The DataFrame column names, in order (the ResultRow fields). -/
def columns : List Line :=
  [lit "Mode", lit "Freq_cm-1", lit "IR_Intensity_km/mol", lit "BOND_Contribs",
   lit "ANGLE_Contribs", lit "OUT_Contribs", lit "TORSION_Contribs",
   lit "Top_Contributions"]

/-- `str(row[c]) for c in df.columns`: the stringified cells of one row. -/
def rowCells (r : ResultRow) : List Line :=
  [natToChars r.Mode, r.Freq, r.IR, natToChars r.BOND, natToChars r.ANGLE,
   natToChars r.OUT, natToChars r.TORSION, r.Top]

/-- `"| " + " | ".join(cells) + " |"`. -/
def mcLine (cells : List Line) : Line :=
  lit "| " ++ joinSep (lit " | ") cells ++ lit " |"

/-- `"|" + " --- |" * len(df.columns)`. -/
def mcSepLine : Line :=
  lit "|" ++ (List.replicate columns.length (lit " --- |")).flatten

/-- The `.mc` export: header line, separator line, one line per row. -/
def exportMc (rows : List ResultRow) : List Line :=
  mcLine columns :: mcSepLine :: rows.map (fun r => mcLine (rowCells r))

/-- The tab-separated `.txt` export (`df.to_csv(outpath, sep='\t',
index=False)`); no cell contains a tab, quote or newline, so minimal
quoting never fires and each line is the plain tab join. -/
def exportTxt (rows : List ResultRow) : List Line :=
  joinSep (lit "\t") columns :: rows.map (fun r => joinSep (lit "\t") (rowCells r))

/-! ## Helper lemmas: digits and decimal strings -/

theorem digitChar_isDigit (n : ℕ) : (digitChar n).isDigit = true := by
  unfold digitChar
  repeat' split
  all_goals rfl

theorem digitVal_digitChar (n : ℕ) (h : n < 10) : digitVal (digitChar n) = n := by
  interval_cases n <;> rfl

theorem natToChars_lt (n : ℕ) (h : n < 10) : natToChars n = [digitChar n] := by
  rw [natToChars]; simp [h]

theorem natToChars_ge (n : ℕ) (h : ¬ n < 10) :
    natToChars n = natToChars (n / 10) ++ [digitChar (n % 10)] := by
  rw [natToChars]; simp [h]

theorem natToChars_ne_nil (n : ℕ) : natToChars n ≠ [] := by
  by_cases h : n < 10
  · rw [natToChars_lt n h]; simp
  · rw [natToChars_ge n h]; simp

theorem natToChars_all_digit (n : ℕ) : ∀ c ∈ natToChars n, c.isDigit = true := by
  induction n using Nat.strong_induction_on with
  | _ n ih =>
    by_cases h : n < 10
    · rw [natToChars_lt n h]
      intro c hc
      simp only [List.mem_singleton] at hc
      subst hc; exact digitChar_isDigit n
    · rw [natToChars_ge n h]
      intro c hc
      rcases List.mem_append.mp hc with h1 | h2
      · exact ih (n / 10) (Nat.div_lt_self (by omega) (by omega)) c h1
      · simp only [List.mem_singleton] at h2
        subst h2; exact digitChar_isDigit _

theorem digitsToNat_append (xs : Line) (c : Char) :
    digitsToNat (xs ++ [c]) = 10 * digitsToNat xs + digitVal c := by
  simp [digitsToNat, List.foldl_append]

theorem digitsToNat_natToChars (n : ℕ) : digitsToNat (natToChars n) = n := by
  induction n using Nat.strong_induction_on with
  | _ n ih =>
    by_cases h : n < 10
    · rw [natToChars_lt n h]
      simp [digitsToNat, digitVal_digitChar n h]
    · rw [natToChars_ge n h, digitsToNat_append,
        ih (n / 10) (Nat.div_lt_self (by omega) (by omega)),
        digitVal_digitChar _ (Nat.mod_lt _ (by omega))]
      omega

/-! ## Helper lemmas: character classes -/

theorem isDigit_not_space {c : Char} (h : c.isDigit = true) : pyIsSpace c = false := by
  simp only [Char.isDigit, Bool.and_eq_true, decide_eq_true_eq] at h
  obtain ⟨h1, _⟩ := h
  simp only [pyIsSpace, Bool.or_eq_false_iff, decide_eq_false_iff_not]
  refine ⟨⟨⟨⟨⟨?_, ?_⟩, ?_⟩, ?_⟩, ?_⟩, ?_⟩ <;> rintro rfl <;> revert h1 <;> decide

theorem isDigit_isDigitDot {c : Char} (h : c.isDigit = true) : isDigitDot c = true := by
  simp [isDigitDot, h]

/-! ## Helper lemmas: takeWhile and dropWhile over appends -/

theorem takeWhile_append_all {p : Char → Bool} {xs : Line} (h : ∀ c ∈ xs, p c = true)
    (rest : Line) : (xs ++ rest).takeWhile p = xs ++ rest.takeWhile p := by
  induction xs with
  | nil => simp
  | cons a as ih =>
    have ha : p a = true := h a (List.mem_cons_self a as)
    simp only [List.cons_append, List.takeWhile_cons, ha, if_true]
    rw [ih (fun c hc => h c (List.mem_cons_of_mem a hc))]

theorem dropWhile_append_all {p : Char → Bool} {xs : Line} (h : ∀ c ∈ xs, p c = true)
    (rest : Line) : (xs ++ rest).dropWhile p = rest.dropWhile p := by
  induction xs with
  | nil => simp
  | cons a as ih =>
    have ha : p a = true := h a (List.mem_cons_self a as)
    simp only [List.cons_append, List.dropWhile_cons, ha, if_true]
    exact ih (fun c hc => h c (List.mem_cons_of_mem a hc))

theorem takeWhile_cons_neg {p : Char → Bool} {c : Char} (h : p c = false) (rest : Line) :
    (c :: rest).takeWhile p = [] := by
  simp [List.takeWhile_cons, h]

theorem dropWhile_cons_neg {p : Char → Bool} {c : Char} (h : p c = false) (rest : Line) :
    (c :: rest).dropWhile p = c :: rest := by
  simp [List.dropWhile_cons, h]

/-- Scanning a clean token: all of `xs` satisfies `p`, the first char of
`rest` (if any) does not. -/
theorem takeWhile_token (p : Char → Bool) (xs rest : Line) (h : ∀ c ∈ xs, p c = true)
    (hrest : rest.head? = none ∨ ∃ c rest', rest = c :: rest' ∧ p c = false) :
    (xs ++ rest).takeWhile p = xs ∧ (xs ++ rest).dropWhile p = rest := by
  rcases hrest with h0 | ⟨c, rest', rfl, hc⟩
  · have : rest = [] := by cases rest <;> simp_all
    subst this
    constructor
    · rw [takeWhile_append_all h]; simp
    · rw [dropWhile_append_all h]; simp
  · constructor
    · rw [takeWhile_append_all h, takeWhile_cons_neg hc]; simp
    · rw [dropWhile_append_all h, dropWhile_cons_neg hc]

/-! ## Aggregator lemmas (claims C2 and C8) -/

theorem bucketKey_eq_upper (t : Line) : bucketKey t = toUpperChars t := by
  unfold bucketKey
  split
  · exact (by assumption : toUpperChars t = lit "TORSION").symm
  · rfl

theorem lookupCnt_nil (key : Line) : lookupCnt [] key = 0 := rfl

theorem lookupCnt_cons (a : Line) (n : ℕ) (rest : List (Line × ℕ)) (key : Line) :
    lookupCnt ((a, n) :: rest) key = if a = key then n else lookupCnt rest key := by
  unfold lookupCnt
  rw [List.find?_cons]
  by_cases h : a = key <;> simp [h]

theorem lookupCnt_bump (k key : Line) (cnt : List (Line × ℕ)) :
    lookupCnt (bump k cnt) key = lookupCnt cnt key + (if k = key then 1 else 0) := by
  induction cnt with
  | nil =>
    by_cases h : k = key <;> simp [bump, lookupCnt_cons, lookupCnt_nil, h]
  | cons p rest ih =>
    obtain ⟨a, n⟩ := p
    unfold bump
    by_cases hak : a = k
    · subst hak
      by_cases hk : a = key <;> simp [lookupCnt_cons, hk]
    · simp only [if_neg hak]
      by_cases hkey : a = key
      · subst hkey
        have : ¬ k = a := fun h => hak h.symm
        simp [lookupCnt_cons, this]
      · simp [lookupCnt_cons, hkey, ih]

theorem lookupCnt_cntInit (key : Line) : lookupCnt cntInit key = 0 := by
  unfold cntInit
  by_cases h1 : lit "BOND" = key
  · simp [lookupCnt_cons, h1]
  by_cases h2 : lit "ANGLE" = key
  · simp [lookupCnt_cons, h1, h2]
  by_cases h3 : lit "OUT" = key
  · simp [lookupCnt_cons, h1, h2, h3]
  by_cases h4 : lit "TORSION" = key
  · simp [lookupCnt_cons, h1, h2, h3, h4]
  · simp [lookupCnt_cons, h1, h2, h3, h4, lookupCnt_nil]

theorem lookupCnt_foldl_bump (l : List Contrib) (key : Line) :
    ∀ init : List (Line × ℕ),
      lookupCnt (l.foldl (fun cnt c => bump (bucketKey c.type) cnt) init) key =
        lookupCnt init key + l.countP (fun c => decide (bucketKey c.type = key)) := by
  induction l with
  | nil => intro init; simp [List.countP_nil]
  | cons c cs ih =>
    intro init
    rw [List.foldl_cons, ih, lookupCnt_bump, List.countP_cons]
    by_cases h : bucketKey c.type = key <;> simp [h] <;> omega

theorem lookupCnt_calcCnt (contribs : List Contrib) (key : Line) :
    lookupCnt (calcCnt contribs) key =
      contribs.countP (fun c => decide (bucketKey c.type = key)) := by
  unfold calcCnt
  rw [lookupCnt_foldl_bump, lookupCnt_cntInit, Nat.zero_add]

/-- Membership in a stable descending insertion. -/
theorem mem_insertDesc {y c : Contrib} : ∀ {acc : List Contrib},
    y ∈ insertDesc c acc ↔ y = c ∨ y ∈ acc := by
  intro acc
  induction acc with
  | nil => simp [insertDesc]
  | cons x xs ih =>
    unfold insertDesc
    split
    · simp [or_comm, or_assoc, or_left_comm]
    · simp only [List.mem_cons, ih]
      tauto

theorem insertDesc_pairwise {c : Contrib} {acc : List Contrib}
    (h : acc.Pairwise (fun a b => b.weight ≤ a.weight)) :
    (insertDesc c acc).Pairwise (fun a b => b.weight ≤ a.weight) := by
  induction acc with
  | nil => simp [insertDesc]
  | cons x xs ih =>
    rw [List.pairwise_cons] at h
    obtain ⟨hx, hxs⟩ := h
    unfold insertDesc
    split
    · rename_i hlt
      rw [List.pairwise_cons]
      refine ⟨?_, by rw [List.pairwise_cons]; exact ⟨hx, hxs⟩⟩
      intro y hy
      rcases List.mem_cons.mp hy with rfl | hy'
      · exact le_of_lt hlt
      · exact le_trans (hx y hy') (le_of_lt hlt)
    · rename_i hge
      rw [List.pairwise_cons]
      refine ⟨?_, ih hxs⟩
      intro y hy
      rcases mem_insertDesc.mp hy with rfl | hy'
      · exact le_of_not_lt hge
      · exact hx y hy'

theorem filter_insertDesc_pos {w : ℚ} {c : Contrib} (hc : c.weight = w)
    {acc : List Contrib} (hs : acc.Pairwise (fun a b => b.weight ≤ a.weight)) :
    (insertDesc c acc).filter (fun x => decide (x.weight = w)) =
      acc.filter (fun x => decide (x.weight = w)) ++ [c] := by
  induction acc with
  | nil => simp [insertDesc, List.filter, hc]
  | cons x xs ih =>
    rw [List.pairwise_cons] at hs
    obtain ⟨hx, hxs⟩ := hs
    unfold insertDesc
    split
    · rename_i hlt
      have hxw : ¬ x.weight = w := by rw [← hc]; exact ne_of_lt hlt
      have hxs0 : xs.filter (fun y => decide (y.weight = w)) = [] := by
        rw [List.filter_eq_nil_iff]
        intro y hy
        have : y.weight ≤ x.weight := hx y hy
        simp only [decide_eq_true_eq]
        rw [← hc]
        exact ne_of_lt (lt_of_le_of_lt this hlt)
      simp [List.filter, hc, hxw, hxs0]
    · by_cases hxw : x.weight = w <;> simp [List.filter_cons, hxw, ih hxs]

theorem filter_insertDesc_neg {w : ℚ} {c : Contrib} (hc : ¬ c.weight = w)
    (acc : List Contrib) :
    (insertDesc c acc).filter (fun x => decide (x.weight = w)) =
      acc.filter (fun x => decide (x.weight = w)) := by
  induction acc with
  | nil => simp [insertDesc, List.filter, hc]
  | cons x xs ih =>
    unfold insertDesc
    split
    · simp [List.filter_cons, hc]
    · by_cases hxw : x.weight = w <;> simp [List.filter_cons, hxw, ih, hc]

theorem sortDesc_append_singleton (l : List Contrib) (c : Contrib) :
    sortDesc (l ++ [c]) = insertDesc c (sortDesc l) := by
  simp [sortDesc, List.foldl_append]

theorem sortDesc_pairwise (l : List Contrib) :
    (sortDesc l).Pairwise (fun a b => b.weight ≤ a.weight) := by
  induction l using List.reverseRecOn with
  | nil => simp [sortDesc]
  | append_singleton l c ih =>
    rw [sortDesc_append_singleton]
    exact insertDesc_pairwise ih

theorem sortDesc_filter_weight (l : List Contrib) (w : ℚ) :
    (sortDesc l).filter (fun x => decide (x.weight = w)) =
      l.filter (fun x => decide (x.weight = w)) := by
  induction l using List.reverseRecOn with
  | nil => simp [sortDesc]
  | append_singleton l c ih =>
    rw [sortDesc_append_singleton]
    by_cases hc : c.weight = w
    · rw [filter_insertDesc_pos hc (sortDesc_pairwise l), ih, List.filter_append]
      simp [List.filter, hc]
    · rw [filter_insertDesc_neg hc, ih, List.filter_append]
      simp [List.filter, hc]

/-- C2 (counterexample): a contribution typed `"bond"` — not exactly one of
the four canonical tokens — nevertheless increments the canonical BOND
bucket, because the counting loop uppercases every type token. -/
theorem claim_C2_counterexample :
    lookupCnt (calcCnt [⟨lit "bond", [lit "C1", lit "H2"], (1 : ℚ) / 2⟩]) (lit "BOND") = 1 ∧
    lit "bond" ≠ lit "BOND" ∧ lit "bond" ≠ lit "ANGLE" ∧
    lit "bond" ≠ lit "OUT" ∧ lit "bond" ≠ lit "TORSION" := by
  refine ⟨by decide, by decide, by decide, by decide, by decide⟩

/-- C2 (amended): the per-mode counting uppercases every type token — the
special `TORSION` case is vacuous — so any case-variant of any canonical
name collapses into that canonical bucket; every bucket starts at zero and
each bucket's final count is the number of contributions whose uppercased
type equals the bucket key. -/
theorem claim_C2_theorem (contribs : List Contrib) (key : Line) :
    (∀ t : Line, bucketKey t = toUpperChars t) ∧
    lookupCnt cntInit key = 0 ∧
    lookupCnt (calcCnt contribs) key =
      contribs.countP (fun c => decide (bucketKey c.type = key)) :=
  ⟨bucketKey_eq_upper, lookupCnt_cntInit key, lookupCnt_calcCnt contribs key⟩

/-- C8: the descending sort behind the top-N selection is stable — for every
weight `w`, the weight-`w` contributions of the sorted list are exactly
those of the input in encounter order; the top-N slice therefore lists its
equal-weight contributions as an order-preserving selection from the input,
and the rendered top-contributor string joins them in that order. -/
theorem claim_C8_theorem (contribs : List Contrib) (topn : ℕ) (w : ℚ) :
    (sortDesc contribs).filter (fun x => decide (x.weight = w)) =
      contribs.filter (fun x => decide (x.weight = w)) ∧
    (((sortDesc contribs).take topn).filter (fun x => decide (x.weight = w))).Sublist
      (contribs.filter (fun x => decide (x.weight = w))) ∧
    topStr topn contribs =
      joinSep (lit "; ") (((sortDesc contribs).take topn).map renderContrib) := by
  refine ⟨sortDesc_filter_weight contribs w, ?_, rfl⟩
  rw [← sortDesc_filter_weight contribs w]
  exact List.Sublist.filter _ (List.take_sublist topn (sortDesc contribs))

/-! ## Extractor lemmas (claims C3 and C5) -/

instance {ε α : Type} [DecidableEq ε] [DecidableEq α] : DecidableEq (Except ε α) :=
  fun a b =>
    match a, b with
    | .ok x, .ok y =>
      if h : x = y then .isTrue (by rw [h])
      else .isFalse (by intro hc; cases hc; exact h rfl)
    | .error e, .error f =>
      if h : e = f then .isTrue (by rw [h])
      else .isFalse (by intro hc; cases hc; exact h rfl)
    | .ok _, .error _ => .isFalse (by intro hc; cases hc)
    | .error _, .ok _ => .isFalse (by intro hc; cases hc)

theorem exceptBind_ok {ε α β : Type} (a : α) (k : α → Except ε β) :
    (Except.ok a >>= k) = k a := rfl

theorem exceptBind_error {ε α β : Type} (e : ε) (k : α → Except ε β) :
    ((Except.error e : Except ε α) >>= k) = Except.error e := rfl

/-- The record a window line contributes, when both floats convert. -/
def goodRecord (ln : Line) : Option (ℕ × OrcaMode) :=
  match lineRecord ln with
  | some (k, some v) => some (k, v)
  | _ => none

theorem parse_orca_ir_of_findStart_none (lines : List Line)
    (h : findStart lines = none) : parse_orca_ir lines = .error .sectionNotFound := by
  unfold parse_orca_ir
  rw [h]

theorem parse_orca_ir_of_findStart_some (lines : List Line) (start : ℕ)
    (h : findStart lines = some start) :
    parse_orca_ir lines =
      (((lines.drop start).take (findEnd lines start - start)).foldlM orcaStep [] >>=
        fun orca => if orca = [] then .error .noModesFound else .ok orca) := by
  unfold parse_orca_ir
  rw [h]

theorem foldlM_orcaStep_error (window : List Line) :
    ∀ (acc : List (ℕ × OrcaMode)) (e : OrcaErr),
      window.foldlM orcaStep acc = .error e → e = .floatError := by
  induction window with
  | nil =>
    intro acc e h
    simp only [List.foldlM_nil, pure, Except.pure] at h
    cases h
  | cons ln rest ih =>
    intro acc e h
    rw [List.foldlM_cons] at h
    unfold orcaStep at h
    rcases hrec : lineRecord ln with _ | ⟨k, _ | v⟩ <;> rw [hrec] at h
    · exact ih acc e h
    · rw [exceptBind_error] at h
      cases h
      rfl
    · exact ih _ e h

theorem foldlM_orcaStep_skip (window : List Line)
    (hnone : ∀ ln ∈ window, matchSpectrum ln = none) (acc : List (ℕ × OrcaMode)) :
    window.foldlM orcaStep acc = .ok acc := by
  induction window generalizing acc with
  | nil => rfl
  | cons ln rest ih =>
    rw [List.foldlM_cons]
    have h1 : lineRecord ln = none := by
      unfold lineRecord
      rw [hnone ln (List.mem_cons_self ln rest)]
    unfold orcaStep
    rw [h1]
    exact ih (fun l hl => hnone l (List.mem_cons_of_mem ln hl)) acc

theorem foldlM_orcaStep_ok (window : List Line) :
    ∀ (acc m : List (ℕ × OrcaMode)), window.foldlM orcaStep acc = .ok m →
      m = (window.filterMap goodRecord).foldl (fun d p => dictInsert p.1 p.2 d) acc := by
  induction window with
  | nil =>
    intro acc m h
    simp only [List.foldlM_nil, pure, Except.pure] at h
    cases h
    rfl
  | cons ln rest ih =>
    intro acc m h
    rw [List.foldlM_cons] at h
    unfold orcaStep at h
    rcases hrec : lineRecord ln with _ | ⟨k, _ | v⟩ <;> rw [hrec] at h
    · have hg : goodRecord ln = none := by unfold goodRecord; rw [hrec]
      rw [List.filterMap_cons, hg]
      exact ih acc m h
    · rw [exceptBind_error] at h
      cases h
    · have hg : goodRecord ln = some (k, v) := by unfold goodRecord; rw [hrec]
      rw [List.filterMap_cons, hg, List.foldl_cons]
      exact ih _ m h

/-- C3: the extractor raises its section-not-found `ValueError` exactly when
no line's stripped content starts with `"IR SPECTRUM"`; it raises its
no-modes-found `ValueError` whenever the label is present but no line of
the bounded window matches the record pattern; and a successful return is a
non-empty mapping. -/
theorem claim_C3_theorem (lines : List Line) :
    (parse_orca_ir lines = .error .sectionNotFound ↔
      ∀ ln ∈ lines, startsWithChars (lit "IR SPECTRUM") (pyStrip ln) = false) ∧
    (∀ start, findStart lines = some start →
      (∀ ln ∈ (lines.drop start).take (findEnd lines start - start), matchSpectrum ln = none) →
      parse_orca_ir lines = .error .noModesFound) ∧
    (∀ m, parse_orca_ir lines = .ok m → m ≠ []) := by
  refine ⟨⟨?_, ?_⟩, ?_, ?_⟩
  · intro h
    rcases hstart : findStart lines with _ | start
    · exact List.findIdx?_eq_none_iff.mp hstart
    · exfalso
      rw [parse_orca_ir_of_findStart_some lines start hstart] at h
      rcases hfold : ((lines.drop start).take (findEnd lines start - start)).foldlM
          orcaStep [] with e | orca <;> rw [hfold] at h
      · rw [exceptBind_error] at h
        cases h
        exact OrcaErr.noConfusion (foldlM_orcaStep_error _ _ _ hfold)
      · rw [exceptBind_ok] at h
        split at h <;> cases h
  · intro h
    exact parse_orca_ir_of_findStart_none lines (List.findIdx?_eq_none_iff.mpr h)
  · intro start hstart hnone
    rw [parse_orca_ir_of_findStart_some lines start hstart,
      foldlM_orcaStep_skip _ hnone, exceptBind_ok]
    rfl
  · intro m h
    rcases hstart : findStart lines with _ | start
    · rw [parse_orca_ir_of_findStart_none lines hstart] at h
      cases h
    · rw [parse_orca_ir_of_findStart_some lines start hstart] at h
      rcases hfold : ((lines.drop start).take (findEnd lines start - start)).foldlM
          orcaStep [] with e | orca <;> rw [hfold] at h
      · rw [exceptBind_error] at h
        cases h
      · rw [exceptBind_ok] at h
        split at h
        · cases h
        · cases h
          assumption

theorem dictInsert_fresh (k : ℕ) (v : OrcaMode) :
    ∀ acc : List (ℕ × OrcaMode), k ∉ acc.map Prod.fst →
      dictInsert k v acc = acc ++ [(k, v)] := by
  intro acc
  induction acc with
  | nil => intro _; rfl
  | cons p rest ih =>
    intro h
    obtain ⟨k', v'⟩ := p
    simp only [List.map_cons, List.mem_cons] at h
    push_neg at h
    unfold dictInsert
    rw [if_neg (fun he => h.1 he.symm), ih h.2]
    rfl

theorem foldl_dictInsert_fresh :
    ∀ (rs acc : List (ℕ × OrcaMode)), (rs.map Prod.fst).Nodup →
      (∀ k ∈ rs.map Prod.fst, k ∉ acc.map Prod.fst) →
      rs.foldl (fun d p => dictInsert p.1 p.2 d) acc = acc ++ rs := by
  intro rs
  induction rs with
  | nil => intro acc _ _; simp
  | cons p rest ih =>
    intro acc hnd hdisj
    obtain ⟨k, v⟩ := p
    simp only [List.map_cons, List.nodup_cons] at hnd
    rw [List.foldl_cons]
    have hk : k ∉ acc.map Prod.fst :=
      hdisj k (by simp)
    rw [dictInsert_fresh k v acc hk, ih (acc ++ [(k, v)]) hnd.2 ?_]
    · simp
    · intro k' hk'
      simp only [List.map_append, List.mem_append, List.map_cons, List.map_nil,
        List.mem_singleton, not_or]
      exact ⟨fun hmem => hdisj k' (by simp [hk']) hmem,
        fun he => hnd.1 (he ▸ hk')⟩

theorem length_filterMap_countP (f : Line → Option (ℕ × OrcaMode)) (l : List Line) :
    (l.filterMap f).length = l.countP (fun x => (f x).isSome) := by
  induction l with
  | nil => simp
  | cons x xs ih =>
    rw [List.filterMap_cons, List.countP_cons]
    rcases h : f x with _ | y <;> simp [h, ih]

/-- C5 (counterexample): the bounded window holds two well-formed spectrum
lines, but they carry the same mode index, so the returned mapping has a
single entry — not one entry per well-formed line. -/
theorem claim_C5_counterexample :
    findStart [lit "IR SPECTRUM", lit "1: 100.0 u 5.0", lit "1: 200.0 u 6.0"] = some 0 ∧
    (([lit "IR SPECTRUM", lit "1: 100.0 u 5.0", lit "1: 200.0 u 6.0"].drop 0).take
        (findEnd [lit "IR SPECTRUM", lit "1: 100.0 u 5.0", lit "1: 200.0 u 6.0"] 0 - 0)).countP
      (fun ln => (goodRecord ln).isSome) = 2 ∧
    parse_orca_ir [lit "IR SPECTRUM", lit "1: 100.0 u 5.0", lit "1: 200.0 u 6.0"] =
      .ok [(1, ⟨200, 6⟩)] ∧
    [(1, (⟨200, 6⟩ : OrcaMode))].length ≠ 2 := by
  refine ⟨by decide, by decide, by with_unfolding_all decide, by decide⟩

/-- C5 (amended): on success the extractor's mapping is the fold of
last-wins dict insertion over the well-formed window lines; whenever the
well-formed lines carry pairwise-distinct mode indices the mapping is
exactly those K records in order — K entries keyed by the parsed indices;
duplicate indices collapse into one entry. -/
theorem claim_C5_theorem (lines : List Line) (start : ℕ) (m : List (ℕ × OrcaMode))
    (hstart : findStart lines = some start)
    (hok : parse_orca_ir lines = .ok m)
    (hnd : ((((lines.drop start).take (findEnd lines start - start)).filterMap
      goodRecord).map Prod.fst).Nodup) :
    m = ((lines.drop start).take (findEnd lines start - start)).filterMap goodRecord ∧
    m.length = ((lines.drop start).take (findEnd lines start - start)).countP
      (fun ln => (goodRecord ln).isSome) ∧
    m.map Prod.fst = (((lines.drop start).take (findEnd lines start - start)).filterMap
      goodRecord).map Prod.fst := by
  rw [parse_orca_ir_of_findStart_some lines start hstart] at hok
  rcases hfold : ((lines.drop start).take (findEnd lines start - start)).foldlM
      orcaStep [] with e | orca <;> rw [hfold] at hok
  · rw [exceptBind_error] at hok
    cases hok
  · rw [exceptBind_ok] at hok
    have horca := foldlM_orcaStep_ok _ _ _ hfold
    rw [foldl_dictInsert_fresh _ [] hnd (by intro k _; simp)] at horca
    simp only [List.nil_append] at horca
    have hm : m = orca := by
      split at hok
      · cases hok
      · cases hok; rfl
    subst hm
    subst horca
    exact ⟨rfl, length_filterMap_countP _ _, rfl⟩

/-- C3 witness: the three error/success behaviours at concrete inputs. -/
theorem claim_C3_witness :
    parse_orca_ir [lit "junk"] = .error .sectionNotFound ∧
    parse_orca_ir [lit "IR SPECTRUM", lit "no records here"] = .error .noModesFound ∧
    ([(3, (⟨1, 2⟩ : OrcaMode))] : List (ℕ × OrcaMode)) ≠ [] :=
  ⟨(claim_C3_theorem [lit "junk"]).1.mpr (by decide),
   (claim_C3_theorem [lit "IR SPECTRUM", lit "no records here"]).2.1 0 (by decide) (by decide),
   (claim_C3_theorem [lit "IR SPECTRUM", lit "3: 1.0 u 2.0"]).2.2 [(3, ⟨1, 2⟩)]
     (by with_unfolding_all decide)⟩

/-- C5 witness: two well-formed lines with distinct indices yield exactly
those two records, keyed by the parsed indices. -/
theorem claim_C5_witness :
    [(1, (⟨100, 5⟩ : OrcaMode)), (2, ⟨200, 6⟩)] =
      (([lit "IR SPECTRUM", lit "1: 100.0 u 5.0", lit "2: 200.0 u 6.0"].drop 0).take
        (findEnd [lit "IR SPECTRUM", lit "1: 100.0 u 5.0", lit "2: 200.0 u 6.0"] 0 - 0)).filterMap
        goodRecord ∧
    [(1, (⟨100, 5⟩ : OrcaMode)), (2, ⟨200, 6⟩)].length =
      (([lit "IR SPECTRUM", lit "1: 100.0 u 5.0", lit "2: 200.0 u 6.0"].drop 0).take
        (findEnd [lit "IR SPECTRUM", lit "1: 100.0 u 5.0", lit "2: 200.0 u 6.0"] 0 - 0)).countP
        (fun ln => (goodRecord ln).isSome) ∧
    [(1, (⟨100, 5⟩ : OrcaMode)), (2, ⟨200, 6⟩)].map Prod.fst =
      ((([lit "IR SPECTRUM", lit "1: 100.0 u 5.0", lit "2: 200.0 u 6.0"].drop 0).take
        (findEnd [lit "IR SPECTRUM", lit "1: 100.0 u 5.0", lit "2: 200.0 u 6.0"] 0 - 0)).filterMap
        goodRecord).map Prod.fst :=
  claim_C5_theorem [lit "IR SPECTRUM", lit "1: 100.0 u 5.0", lit "2: 200.0 u 6.0"] 0
    [(1, ⟨100, 5⟩), (2, ⟨200, 6⟩)] (by decide) (by with_unfolding_all decide)
    (by with_unfolding_all decide)

/-! ## Merger lemmas (claims C1, C9, C10) -/

theorem findMatch_some {f : ℚ} {rem : List (ℕ × OrcaMode)} {k : ℕ} {v : OrcaMode}
    (h : findMatch f rem = some (k, v)) : (k, v) ∈ rem ∧ |v.freq - f| < tol := by
  unfold findMatch at h
  refine ⟨List.mem_of_find?_eq_some h, ?_⟩
  have hp := List.find?_some h
  simpa using hp

/-- C9: when the rewriting loop completes, it emits exactly one output line
per input line in order; a position differs from its input only when that
input line is a mode header whose parsed frequency found a
within-tolerance record, in which case the output is the reformatted line
carrying that record's intensity. -/
theorem claim_C9_theorem :
    ∀ (lines : List Line) (rem : List (ℕ × OrcaMode)) (out : List Line)
      (rem' : List (ℕ × OrcaMode)),
      replaceVmardIr lines rem = .ok (out, rem') →
      out.length = lines.length ∧
      ∀ i : ℕ, out.get? i = lines.get? i ∨
        ∃ (ln : Line) (vm : ℕ) (g2 g3 : Line) (f : ℚ) (v : OrcaMode),
          lines.get? i = some ln ∧
          matchModeHeader ln = some (vm, g2, g3) ∧ pyFloatDD g2 = some f ∧
          |v.freq - f| < tol ∧ out.get? i = some (emitLine vm f v.ir) := by
  intro lines
  induction lines with
  | nil =>
    intro rem out rem' h
    unfold replaceVmardIr at h
    injection h with h1
    injection h1 with h2 h3
    subst h2
    exact ⟨rfl, fun i => Or.inl rfl⟩
  | cons ln rest ih =>
    intro rem out rem' h
    rcases hm : matchModeHeader ln with _ | ⟨vm, g2, g3⟩
    · rcases hr : replaceVmardIr rest rem with e | ⟨o, r⟩
      · simp only [replaceVmardIr, hm, hr] at h
        exact Except.noConfusion h
      · simp only [replaceVmardIr, hm, hr] at h
        injection h with h1
        injection h1 with h2 h3
        subst h2
        obtain ⟨hlen, hidx⟩ := ih rem o r hr
        refine ⟨by simp [hlen], ?_⟩
        intro i
        cases i with
        | zero => exact Or.inl rfl
        | succ j => simpa using hidx j
    · rcases hf : pyFloatDD g2 with _ | f
      · simp only [replaceVmardIr, hm, hf] at h
        exact Except.noConfusion h
      · rcases hfm : findMatch f rem with _ | ⟨k, v⟩
        · rcases hr : replaceVmardIr rest rem with e | ⟨o, r⟩
          · simp only [replaceVmardIr, hm, hf, hfm, hr] at h
            exact Except.noConfusion h
          · simp only [replaceVmardIr, hm, hf, hfm, hr] at h
            injection h with h1
            injection h1 with h2 h3
            subst h2
            obtain ⟨hlen, hidx⟩ := ih rem o r hr
            refine ⟨by simp [hlen], ?_⟩
            intro i
            cases i with
            | zero => exact Or.inl rfl
            | succ j => simpa using hidx j
        · rcases hr : replaceVmardIr rest (eraseKey k rem) with e | ⟨o, r⟩
          · simp only [replaceVmardIr, hm, hf, hfm, hr] at h
            exact Except.noConfusion h
          · simp only [replaceVmardIr, hm, hf, hfm, hr] at h
            injection h with h1
            injection h1 with h2 h3
            subst h2
            obtain ⟨_, htol⟩ := findMatch_some hfm
            obtain ⟨hlen, hidx⟩ := ih _ o r hr
            refine ⟨by simp [hlen], ?_⟩
            intro i
            cases i with
            | zero => exact Or.inr ⟨ln, vm, g2, g3, f, v, rfl, hm, hf, htol, rfl⟩
            | succ j => simpa using hidx j

/-- C9 witness: a three-line input (matched header, unmatched header, plain
text) yields exactly three output lines in order, the latter two unchanged. -/
theorem claim_C9_witness :
    [emitLine 1 100 5, lit "Mode 2:  300.00 cm-1 (IR: 0.00)", lit "some text"].length =
      [lit "Mode 1:  100.00 cm-1 (IR: 0.00)", lit "Mode 2:  300.00 cm-1 (IR: 0.00)",
        lit "some text"].length ∧
    ∀ i : ℕ,
      [emitLine 1 100 5, lit "Mode 2:  300.00 cm-1 (IR: 0.00)", lit "some text"].get? i =
        [lit "Mode 1:  100.00 cm-1 (IR: 0.00)", lit "Mode 2:  300.00 cm-1 (IR: 0.00)",
          lit "some text"].get? i ∨
      ∃ (ln : Line) (vm : ℕ) (g2 g3 : Line) (f : ℚ) (v : OrcaMode),
        [lit "Mode 1:  100.00 cm-1 (IR: 0.00)", lit "Mode 2:  300.00 cm-1 (IR: 0.00)",
          lit "some text"].get? i = some ln ∧
        matchModeHeader ln = some (vm, g2, g3) ∧ pyFloatDD g2 = some f ∧
        |v.freq - f| < tol ∧
        [emitLine 1 100 5, lit "Mode 2:  300.00 cm-1 (IR: 0.00)", lit "some text"].get? i =
          some (emitLine vm f v.ir) :=
  claim_C9_theorem
    [lit "Mode 1:  100.00 cm-1 (IR: 0.00)", lit "Mode 2:  300.00 cm-1 (IR: 0.00)",
      lit "some text"]
    [(7, ⟨100, 5⟩)]
    [emitLine 1 100 5, lit "Mode 2:  300.00 cm-1 (IR: 0.00)", lit "some text"]
    [] (by with_unfolding_all decide)

/-- C1: each spectrum record is consumed at most once.  (a) With a single
remaining record within tolerance of two consecutive header lines, only the
first header is replaced and the second passes through unchanged, the
record having been removed.  (b) With two remaining records both within
tolerance of one header line, the record earlier in scan order is the one
consumed, the later one staying in the remaining set. -/
theorem claim_C1_theorem :
    (∀ (h1 h2 : Line) (k : ℕ) (r : OrcaMode) (vm1 vm2 : ℕ) (g21 g31 g22 g32 : Line)
      (f1 f2 : ℚ),
      matchModeHeader h1 = some (vm1, g21, g31) → pyFloatDD g21 = some f1 →
      matchModeHeader h2 = some (vm2, g22, g32) → pyFloatDD g22 = some f2 →
      |r.freq - f1| < tol → |r.freq - f2| < tol →
      replaceVmardIr [h1, h2] [(k, r)] = .ok ([emitLine vm1 f1 r.ir, h2], [])) ∧
    (∀ (h : Line) (k1 k2 : ℕ) (r1 r2 : OrcaMode) (vm : ℕ) (g2 g3 : Line) (f : ℚ),
      matchModeHeader h = some (vm, g2, g3) → pyFloatDD g2 = some f →
      |r1.freq - f| < tol → |r2.freq - f| < tol →
      replaceVmardIr [h] [(k1, r1), (k2, r2)] = .ok ([emitLine vm f r1.ir], [(k2, r2)])) := by
  constructor
  · intro h1 h2 k r vm1 vm2 g21 g31 g22 g32 f1 f2 hm1 hf1 hm2 hf2 ht1 ht2
    have hfm1 : findMatch f1 [(k, r)] = some (k, r) := by
      unfold findMatch
      exact List.find?_cons_of_pos _ (by simpa using ht1)
    have her : eraseKey k [(k, r)] = [] := by simp [eraseKey]
    have hfm2 : findMatch f2 ([] : List (ℕ × OrcaMode)) = none := rfl
    simp only [replaceVmardIr, hm1, hf1, hfm1, her, hm2, hf2, hfm2]
  · intro h k1 k2 r1 r2 vm g2 g3 f hm hf ht1 ht2
    have hfm : findMatch f [(k1, r1), (k2, r2)] = some (k1, r1) := by
      unfold findMatch
      exact List.find?_cons_of_pos _ (by simpa using ht1)
    have her : eraseKey k1 [(k1, r1), (k2, r2)] = [(k2, r2)] := by simp [eraseKey]
    simp only [replaceVmardIr, hm, hf, hfm, her]

/-- C1 witness: both consumption scenarios at concrete inputs — one record
against two in-tolerance headers, and two in-tolerance records against one
header. -/
theorem claim_C1_witness :
    replaceVmardIr
      [lit "Mode 1:  100.00 cm-1 (IR: 0.00)", lit "Mode 2:  100.00 cm-1 (IR: 0.00)"]
      [(7, ⟨100, 5⟩)] =
      .ok ([emitLine 1 100 5, lit "Mode 2:  100.00 cm-1 (IR: 0.00)"], []) ∧
    replaceVmardIr [lit "Mode 3:  200.00 cm-1 (IR: 0.00)"]
      [(4, ⟨200, 8⟩), (9, ⟨200, 6⟩)] =
      .ok ([emitLine 3 200 8], [(9, ⟨200, 6⟩)]) := by
  constructor
  · exact claim_C1_theorem.1 (lit "Mode 1:  100.00 cm-1 (IR: 0.00)")
      (lit "Mode 2:  100.00 cm-1 (IR: 0.00)") 7 ⟨100, 5⟩ 1 2
      (lit "100.00") (lit "0.00") (lit "100.00") (lit "0.00") 100 100
      (by decide) (by with_unfolding_all decide) (by decide)
      (by with_unfolding_all decide) (by with_unfolding_all decide)
      (by with_unfolding_all decide)
  · exact claim_C1_theorem.2 (lit "Mode 3:  200.00 cm-1 (IR: 0.00)") 4 9
      ⟨200, 8⟩ ⟨200, 6⟩ 3 (lit "200.00") (lit "0.00") 200
      (by decide) (by with_unfolding_all decide) (by with_unfolding_all decide)
      (by with_unfolding_all decide)

theorem expectLit_self (xs rest : Line) : expectLit xs (xs ++ rest) = some rest := by
  induction xs with
  | nil => rfl
  | cons p ps ih => simp [expectLit, ih]

/-- A spectrum line whose frequency field starts with a minus sign never
matches the record pattern: `[\d.]+` cannot begin at `'-'`. -/
theorem matchSpectrum_neg_freq (ws1 ds ws2 rest : Line)
    (hws1 : ∀ c ∈ ws1, pyIsSpace c = true) (hds : ds ≠ [])
    (hdig : ∀ c ∈ ds, c.isDigit = true) (hws2 : ∀ c ∈ ws2, pyIsSpace c = true) :
    matchSpectrum (ws1 ++ (ds ++ ':' :: (ws2 ++ '-' :: rest))) = none := by
  obtain ⟨d, ds', rfl⟩ : ∃ d ds', ds = d :: ds' := by
    cases ds with
    | nil => exact absurd rfl hds
    | cons d ds' => exact ⟨d, ds', rfl⟩
  have hd : Char.isDigit d = true := hdig d (by simp)
  have e1 : (ws1 ++ ((d :: ds') ++ ':' :: (ws2 ++ '-' :: rest))).dropWhile pyIsSpace
      = (d :: ds') ++ ':' :: (ws2 ++ '-' :: rest) := by
    rw [dropWhile_append_all hws1]
    simp only [List.cons_append]
    exact dropWhile_cons_neg (isDigit_not_space hd) _
  have e2 := takeWhile_token Char.isDigit (d :: ds')
      (':' :: (ws2 ++ '-' :: rest)) hdig (Or.inr ⟨':', _, rfl, by decide⟩)
  have e3 : (ws2 ++ '-' :: rest).dropWhile pyIsSpace = '-' :: rest := by
    rw [dropWhile_append_all hws2]
    exact dropWhile_cons_neg (by decide) _
  simp only [matchSpectrum, e1, e2.1, e2.2]
  rw [if_neg (by simp : ¬(d :: ds') = [])]
  simp only [e3, takeWhile_cons_neg (show isDigitDot '-' = false by decide)]
  simp

/-- A mode header whose frequency field starts with a minus sign never
matches the mode-header pattern. -/
theorem matchModeHeader_neg_freq (ws0 sp1 ds ws2 rest : Line)
    (hws0 : ∀ c ∈ ws0, pyIsSpace c = true)
    (hsp1 : sp1 ≠ []) (hsp1s : ∀ c ∈ sp1, pyIsSpace c = true)
    (hds : ds ≠ []) (hdig : ∀ c ∈ ds, c.isDigit = true)
    (hws2 : ∀ c ∈ ws2, pyIsSpace c = true) :
    matchModeHeader
      (ws0 ++ (lit "Mode" ++ (sp1 ++ (ds ++ ':' :: (ws2 ++ '-' :: rest))))) = none := by
  obtain ⟨d, ds', rfl⟩ : ∃ d ds', ds = d :: ds' := by
    cases ds with
    | nil => exact absurd rfl hds
    | cons d ds' => exact ⟨d, ds', rfl⟩
  have hd : Char.isDigit d = true := hdig d (by simp)
  have e0 : (ws0 ++ (lit "Mode" ++ (sp1 ++ ((d :: ds') ++ ':' :: (ws2 ++ '-' :: rest))))).dropWhile
      pyIsSpace = lit "Mode" ++ (sp1 ++ ((d :: ds') ++ ':' :: (ws2 ++ '-' :: rest))) := by
    rw [dropWhile_append_all hws0]
    rw [show lit "Mode" ++ (sp1 ++ ((d :: ds') ++ ':' :: (ws2 ++ '-' :: rest)))
        = 'M' :: (lit "ode" ++ (sp1 ++ ((d :: ds') ++ ':' :: (ws2 ++ '-' :: rest)))) from rfl]
    exact dropWhile_cons_neg (by decide) _
  have e1 := expectLit_self (lit "Mode") (sp1 ++ ((d :: ds') ++ ':' :: (ws2 ++ '-' :: rest)))
  have e2 := takeWhile_token pyIsSpace sp1
      ((d :: ds') ++ ':' :: (ws2 ++ '-' :: rest)) hsp1s
      (Or.inr ⟨d, ds' ++ ':' :: (ws2 ++ '-' :: rest), by simp, isDigit_not_space hd⟩)
  have e3 := takeWhile_token Char.isDigit (d :: ds')
      (':' :: (ws2 ++ '-' :: rest)) hdig (Or.inr ⟨':', _, rfl, by decide⟩)
  have e4 : (ws2 ++ '-' :: rest).dropWhile pyIsSpace = '-' :: rest := by
    rw [dropWhile_append_all hws2]
    exact dropWhile_cons_neg (by decide) _
  simp only [matchModeHeader, e0, e1, e2.1, e2.2, e3.1, e3.2]
  rw [if_neg hsp1]
  rw [if_neg (by simp : ¬(d :: ds') = [])]
  simp only [e4, takeWhile_cons_neg (show isDigitDot '-' = false by decide)]
  simp

/-- C10: a line carrying a negative (imaginary-mode) frequency such as
`-50.23` matches neither pattern: the extractor's collection step leaves
its accumulator unchanged, and the merger emits the line untouched with no
record consumed — silently in both cases. -/
theorem claim_C10_theorem :
    (∀ (ws1 ds ws2 rest : Line) (acc : List (ℕ × OrcaMode)),
      (∀ c ∈ ws1, pyIsSpace c = true) → ds ≠ [] → (∀ c ∈ ds, c.isDigit = true) →
      (∀ c ∈ ws2, pyIsSpace c = true) →
      matchSpectrum (ws1 ++ (ds ++ ':' :: (ws2 ++ '-' :: rest))) = none ∧
      orcaStep acc (ws1 ++ (ds ++ ':' :: (ws2 ++ '-' :: rest))) = .ok acc) ∧
    (∀ (ws0 sp1 ds ws2 rest : Line) (rem : List (ℕ × OrcaMode)),
      (∀ c ∈ ws0, pyIsSpace c = true) → sp1 ≠ [] → (∀ c ∈ sp1, pyIsSpace c = true) →
      ds ≠ [] → (∀ c ∈ ds, c.isDigit = true) → (∀ c ∈ ws2, pyIsSpace c = true) →
      matchModeHeader
        (ws0 ++ (lit "Mode" ++ (sp1 ++ (ds ++ ':' :: (ws2 ++ '-' :: rest))))) = none ∧
      replaceVmardIr [ws0 ++ (lit "Mode" ++ (sp1 ++ (ds ++ ':' :: (ws2 ++ '-' :: rest))))] rem =
        .ok ([ws0 ++ (lit "Mode" ++ (sp1 ++ (ds ++ ':' :: (ws2 ++ '-' :: rest))))], rem)) := by
  constructor
  · intro ws1 ds ws2 rest acc hws1 hds hdig hws2
    have hneg := matchSpectrum_neg_freq ws1 ds ws2 rest hws1 hds hdig hws2
    refine ⟨hneg, ?_⟩
    have h1 : lineRecord (ws1 ++ (ds ++ ':' :: (ws2 ++ '-' :: rest))) = none := by
      unfold lineRecord
      rw [hneg]
    unfold orcaStep
    rw [h1]
  · intro ws0 sp1 ds ws2 rest rem hws0 hsp1 hsp1s hds hdig hws2
    have hneg := matchModeHeader_neg_freq ws0 sp1 ds ws2 rest hws0 hsp1 hsp1s hds hdig hws2
    refine ⟨hneg, ?_⟩
    simp only [replaceVmardIr, hneg]

/-- C10 witness: the decompositions of `"  3: -50.23 cm**-1 12.0"` and
`"Mode 4:  -50.23 cm-1 (IR: 0.00)"` at concrete inputs. -/
theorem claim_C10_witness :
    matchSpectrum (lit "  3: -50.23 cm**-1 12.0") = none ∧
    orcaStep [] (lit "  3: -50.23 cm**-1 12.0") = .ok [] ∧
    matchModeHeader (lit "Mode 4:  -50.23 cm-1 (IR: 0.00)") = none ∧
    replaceVmardIr [lit "Mode 4:  -50.23 cm-1 (IR: 0.00)"] [(1, ⟨50, 2⟩)] =
      .ok ([lit "Mode 4:  -50.23 cm-1 (IR: 0.00)"], [(1, ⟨50, 2⟩)]) := by
  have ha := claim_C10_theorem.1 (lit "  ") (lit "3") (lit " ")
    (lit "50.23 cm**-1 12.0") [] (by decide) (by decide) (by decide) (by decide)
  have hb := claim_C10_theorem.2 (lit "") (lit " ") (lit "4") (lit "  ")
    (lit "50.23 cm-1 (IR: 0.00)") [(1, ⟨50, 2⟩)] (by decide) (by decide) (by decide)
    (by decide) (by decide) (by decide)
  exact ⟨ha.1, ha.2, hb.1, hb.2⟩

/-! ## Export lemmas (claim C7) -/

/-- C7 (counterexample): the pipe-delimited `.mc` export of an empty result
set is a 2-line file (header plus markdown separator), not `0 + 1` lines,
so "row count equals N plus one header row" fails for that format when
rows are counted as physical lines. -/
theorem claim_C7_counterexample :
    (exportMc []).length = 2 ∧ (2 : ℕ) ≠ 0 + 1 := by
  exact ⟨rfl, by decide⟩

/-- C7 (amended): the tab-separated export has exactly N+1 lines — the
column-name header then one line per row; the pipe-delimited export has
N+2 physical lines — the column-name header, the markdown separator row,
then one line per row; and each data line renders exactly one cell per
ResultRow field (the cell list and the column list have equal length). -/
theorem claim_C7_theorem (rows : List ResultRow) :
    (exportTxt rows).length = rows.length + 1 ∧
    (exportTxt rows).head? = some (joinSep (lit "\t") columns) ∧
    exportMc rows = mcLine columns :: mcSepLine :: rows.map (fun r => mcLine (rowCells r)) ∧
    (exportMc rows).length = rows.length + 2 ∧
    (∀ r : ResultRow, (rowCells r).length = columns.length) := by
  refine ⟨by simp [exportTxt], rfl, rfl, by simp [exportMc], fun r => rfl⟩

/-! ## Frequency-filter lemmas (claim C6) -/

/-- Row predicate of the inclusive range filter, on the row's own parsed
display frequency. -/
def rowInRange (a b : ℚ) (r : ResultRow) : Bool :=
  match pyFloat r.Freq with
  | some f => decide (a ≤ f ∧ f ≤ b)
  | none => false

/-- Row predicate of the discrete-value filter: exact equality of the
row's parsed display frequency with a listed value. -/
def rowInList (freqs : List ℚ) (r : ResultRow) : Bool :=
  match pyFloat r.Freq with
  | some f => decide (f ∈ freqs)
  | none => false

theorem zip_filter_map_eq (q : ℚ → Bool) :
    ∀ (rows : List ResultRow) (fs : List ℚ), rowFreqs rows = some fs →
      (((rows.zip fs).filter (fun p => q p.2)).map Prod.fst) =
        rows.filter (fun r =>
          match pyFloat r.Freq with
          | some f => q f
          | none => false) := by
  intro rows
  induction rows with
  | nil =>
    intro fs h
    simp only [rowFreqs, List.mapM_nil, pure, Option.pure_def] at h
    cases h
    rfl
  | cons r rs ih =>
    intro fs h
    unfold rowFreqs at h
    rw [List.mapM_cons] at h
    rcases hr : pyFloat r.Freq with _ | f <;> rw [hr] at h
    · simp at h
    · rcases hrs : rs.mapM (fun r => pyFloat r.Freq) with _ | fs' <;> rw [hrs] at h
      · simp at h
      · simp only [Option.bind_eq_bind, Option.some_bind, Option.pure_def] at h
        cases h
        have ih' := ih fs' hrs
        simp only [List.zip_cons_cons, List.filter_cons]
        by_cases hq : q f = true
        · simp [hq, hr, ih']
        · simp [hq, hr, ih']

theorem keepRange_eq (a b : ℚ) (rows : List ResultRow) (fs : List ℚ)
    (h : rowFreqs rows = some fs) :
    keepRange a b rows fs = rows.filter (rowInRange a b) := by
  unfold keepRange
  rw [zip_filter_map_eq (fun f => decide (a ≤ f ∧ f ≤ b)) rows fs h]
  congr 1

theorem keepIsin_eq (freqs : List ℚ) (rows : List ResultRow) (fs : List ℚ)
    (h : rowFreqs rows = some fs) :
    keepIsin freqs rows fs = rows.filter (rowInList freqs) := by
  unfold keepIsin
  rw [zip_filter_map_eq (fun f => decide (f ∈ freqs)) rows fs h]
  congr 1

/-- C6: the frequency filter.  A well-formed single-hyphen range `A-B`
keeps exactly the rows whose parsed display frequency lies in the
inclusive interval `[A, B]`; a comma-separated value list keeps exactly
the rows whose parsed display frequency equals one of the parsed values;
and malformed input — a hyphen string that does not split into exactly
two parts, an unparseable range endpoint, or an unparseable listed value —
returns the row set unchanged. -/
theorem claim_C6_theorem (raw : Line) (rows : List ResultRow) (fs : List ℚ)
    (hrows : rowFreqs rows = some fs) :
    (∀ (a b : Line) (A B : ℚ),
      pyStrip raw ≠ [] → (pyStrip raw).contains '-' = true →
      pySplitChar '-' (pyStrip raw) = [a, b] →
      pyFloat (pyStrip a) = some A → pyFloat (pyStrip b) = some B →
      freqFilter raw rows = rows.filter (rowInRange A B)) ∧
    (∀ freqs : List ℚ,
      pyStrip raw ≠ [] → (pyStrip raw).contains '-' = false →
      (((pySplitChar ',' (pyStrip raw)).map pyStrip).filter (fun x => x ≠ [])).mapM pyFloat
        = some freqs →
      freqFilter raw rows = rows.filter (rowInList freqs)) ∧
    (∀ a b : Line,
      (pyStrip raw).contains '-' = true → pySplitChar '-' (pyStrip raw) = [a, b] →
      (pyFloat (pyStrip a) = none ∨ pyFloat (pyStrip b) = none) →
      freqFilter raw rows = rows) ∧
    ((pyStrip raw).contains '-' = true → (pySplitChar '-' (pyStrip raw)).length ≠ 2 →
      freqFilter raw rows = rows) ∧
    ((pyStrip raw).contains '-' = false →
      (((pySplitChar ',' (pyStrip raw)).map pyStrip).filter (fun x => x ≠ [])).mapM pyFloat
        = none →
      freqFilter raw rows = rows) := by
  refine ⟨?_, ?_, ?_, ?_, ?_⟩
  · intro a b A B hne hcont hsplit hfa hfb
    simp only [freqFilter, if_neg hne, hcont, if_pos, hsplit, hfa, hfb, hrows]
    exact keepRange_eq A B rows fs hrows
  · intro freqs hne hcont hparse
    simp only [freqFilter, if_neg hne, hcont, Bool.false_eq_true, if_false, hparse, hrows]
    exact keepIsin_eq freqs rows fs hrows
  · intro a b hcont hsplit hbad
    by_cases hne : pyStrip raw = []
    · simp only [freqFilter, if_pos hne]
    · rcases hbad with hfa | hfb
      · simp only [freqFilter, if_neg hne, hcont, if_pos, hsplit, hfa]
      · rcases hfa : pyFloat (pyStrip a) with _ | A
        · simp only [freqFilter, if_neg hne, hcont, if_pos, hsplit, hfa]
        · simp only [freqFilter, if_neg hne, hcont, if_pos, hsplit, hfa, hfb]
  · intro hcont hlen
    by_cases hne : pyStrip raw = []
    · simp only [freqFilter, if_pos hne]
    · rcases hsplit : pySplitChar '-' (pyStrip raw) with _ | ⟨a, rest⟩
      · simp only [freqFilter, if_neg hne, hcont, if_pos, hsplit]
      · rcases rest with _ | ⟨b, rest2⟩
        · simp only [freqFilter, if_neg hne, hcont, if_pos, hsplit]
        · rcases rest2 with _ | ⟨c, rest3⟩
          · exact absurd (by rw [hsplit]; rfl) hlen
          · simp only [freqFilter, if_neg hne, hcont, if_pos, hsplit]
  · intro hcont hparse
    by_cases hne : pyStrip raw = []
    · simp only [freqFilter, if_pos hne]
    · simp only [freqFilter, if_neg hne, hcont, Bool.false_eq_true, if_false, hparse]

/-- C6 witness: the spec's own examples — range `"100-200"` keeps only the
150.00 row, discrete `"150.00,300.00"` keeps exactly those two rows, and
two malformed inputs leave the set unchanged. -/
theorem claim_C6_witness :
    freqFilter (lit "100-200")
      [⟨1, lit "150.00", lit "1.00", 0, 0, 0, 0, lit ""⟩,
       ⟨2, lit "205.00", lit "2.00", 0, 0, 0, 0, lit ""⟩] =
      [⟨1, lit "150.00", lit "1.00", 0, 0, 0, 0, lit ""⟩] ∧
    freqFilter (lit "150.00,300.00")
      [⟨1, lit "150.00", lit "1.00", 0, 0, 0, 0, lit ""⟩,
       ⟨2, lit "205.00", lit "2.00", 0, 0, 0, 0, lit ""⟩,
       ⟨3, lit "300.00", lit "3.00", 0, 0, 0, 0, lit ""⟩] =
      [⟨1, lit "150.00", lit "1.00", 0, 0, 0, 0, lit ""⟩,
       ⟨3, lit "300.00", lit "3.00", 0, 0, 0, 0, lit ""⟩] ∧
    freqFilter (lit "100-abc")
      [⟨1, lit "150.00", lit "1.00", 0, 0, 0, 0, lit ""⟩,
       ⟨2, lit "205.00", lit "2.00", 0, 0, 0, 0, lit ""⟩] =
      [⟨1, lit "150.00", lit "1.00", 0, 0, 0, 0, lit ""⟩,
       ⟨2, lit "205.00", lit "2.00", 0, 0, 0, 0, lit ""⟩] ∧
    freqFilter (lit "100-200-300")
      [⟨1, lit "150.00", lit "1.00", 0, 0, 0, 0, lit ""⟩,
       ⟨2, lit "205.00", lit "2.00", 0, 0, 0, 0, lit ""⟩] =
      [⟨1, lit "150.00", lit "1.00", 0, 0, 0, 0, lit ""⟩,
       ⟨2, lit "205.00", lit "2.00", 0, 0, 0, 0, lit ""⟩] := by
  refine ⟨?_, ?_, ?_, ?_⟩
  · exact ((claim_C6_theorem (lit "100-200")
      [⟨1, lit "150.00", lit "1.00", 0, 0, 0, 0, lit ""⟩,
       ⟨2, lit "205.00", lit "2.00", 0, 0, 0, 0, lit ""⟩] [150, 205]
      (by with_unfolding_all decide)).1 (lit "100") (lit "200") 100 200
      (by decide) (by decide) (by decide) (by with_unfolding_all decide)
      (by with_unfolding_all decide)).trans (by with_unfolding_all decide)
  · exact ((claim_C6_theorem (lit "150.00,300.00")
      [⟨1, lit "150.00", lit "1.00", 0, 0, 0, 0, lit ""⟩,
       ⟨2, lit "205.00", lit "2.00", 0, 0, 0, 0, lit ""⟩,
       ⟨3, lit "300.00", lit "3.00", 0, 0, 0, 0, lit ""⟩] [150, 205, 300]
      (by with_unfolding_all decide)).2.1 [150, 300]
      (by decide) (by decide) (by with_unfolding_all decide)).trans
      (by with_unfolding_all decide)
  · exact (claim_C6_theorem (lit "100-abc")
      [⟨1, lit "150.00", lit "1.00", 0, 0, 0, 0, lit ""⟩,
       ⟨2, lit "205.00", lit "2.00", 0, 0, 0, 0, lit ""⟩] [150, 205]
      (by with_unfolding_all decide)).2.2.1 (lit "100") (lit "abc")
      (by decide) (by decide) (Or.inr (by decide))
  · exact (claim_C6_theorem (lit "100-200-300")
      [⟨1, lit "150.00", lit "1.00", 0, 0, 0, 0, lit ""⟩,
       ⟨2, lit "205.00", lit "2.00", 0, 0, 0, 0, lit ""⟩] [150, 205]
      (by with_unfolding_all decide)).2.2.2.1 (by decide) (by decide)

/-! ## Round-trip lemmas (claim C4) -/

theorem natToChars_cons (n : ℕ) :
    ∃ c cs, natToChars n = c :: cs ∧ c.isDigit = true := by
  rcases h : natToChars n with _ | ⟨c, cs⟩
  · exact absurd h (natToChars_ne_nil n)
  · exact ⟨c, cs, rfl, natToChars_all_digit n c (by rw [h]; simp)⟩

theorem pad2_all_digit (b : ℕ) : ∀ c ∈ pad2 b, c.isDigit = true := by
  unfold pad2
  split
  · intro c hc
    rcases List.mem_cons.mp hc with rfl | h
    · decide
    · exact natToChars_all_digit b c h
  · exact natToChars_all_digit b

theorem digitsToNat_cons_zero (xs : Line) : digitsToNat ('0' :: xs) = digitsToNat xs := rfl

theorem digitsToNat_pad2 (b : ℕ) (h : b < 100) : digitsToNat (pad2 b) = b := by
  unfold pad2
  split
  · rw [digitsToNat_cons_zero, digitsToNat_natToChars]
  · rw [digitsToNat_natToChars]

theorem natToChars_length_two (n : ℕ) (h1 : 10 ≤ n) (h2 : n < 100) :
    (natToChars n).length = 2 := by
  rw [natToChars_ge n (by omega), natToChars_lt (n / 10) (by omega)]
  rfl

theorem pad2_length (b : ℕ) (h : b < 100) : (pad2 b).length = 2 := by
  unfold pad2
  split
  · rename_i hb
    rw [natToChars_lt b hb]
    rfl
  · rename_i hb
    exact natToChars_length_two b (by omega) h

theorem pyFloatDD_decimal (a b : ℕ) (hb : b < 100) :
    pyFloatDD (natToChars a ++ '.' :: pad2 b) = some ((a : ℚ) + (b : ℚ) / 100) := by
  have h1 := takeWhile_token Char.isDigit (natToChars a)
    ('.' :: pad2 b) (natToChars_all_digit a) (Or.inr ⟨'.', _, rfl, by decide⟩)
  have h2 : (pad2 b).all Char.isDigit = true := List.all_eq_true.mpr (pad2_all_digit b)
  have h3 : natToChars a ≠ [] := natToChars_ne_nil a
  simp only [pyFloatDD, h1.1, h1.2, h2, h3, if_true, Bool.and_eq_true, decide_eq_true_eq,
    false_and, if_false]
  rw [digitsToNat_natToChars, digitsToNat_pad2 b hb, pad2_length b hb]
  norm_num

theorem format2_all_digitDot (q : ℚ) : ∀ c ∈ format2 q, isDigitDot c = true := by
  unfold format2
  intro c hc
  rcases List.mem_append.mp hc with h | h
  · exact isDigit_isDigitDot (natToChars_all_digit _ c h)
  · rcases List.mem_cons.mp h with rfl | h2
    · decide
    · exact isDigit_isDigitDot (pad2_all_digit _ c h2)

theorem format2_head (q : ℚ) :
    ∃ c cs, format2 q = c :: cs ∧ c.isDigit = true := by
  unfold format2
  obtain ⟨c, cs, hn, hd⟩ := natToChars_cons ((cents q).toNat / 100)
  exact ⟨c, cs ++ '.' :: pad2 ((cents q).toNat % 100), by rw [hn]; rfl, hd⟩

theorem format2_ne_nil (q : ℚ) : format2 q ≠ [] := by
  obtain ⟨c, cs, h, _⟩ := format2_head q
  rw [h]
  simp

theorem pyFloatDD_format2 (q : ℚ) :
    pyFloatDD (format2 q) = some (((cents q).toNat : ℚ) / 100) := by
  unfold format2
  rw [pyFloatDD_decimal _ _ (Nat.mod_lt _ (by norm_num))]
  congr 1
  field_simp
  norm_cast
  omega

theorem cents_div100 (N : ℕ) : cents ((N : ℚ) / 100) = (N : ℤ) := by
  unfold cents
  rw [div_mul_cancel₀]
  · exact round_natCast N
  · norm_num

theorem format2_roundtrip (q : ℚ) :
    format2 (((cents q).toNat : ℚ) / 100) = format2 q := by
  unfold format2
  rw [cents_div100, Int.toNat_natCast]

theorem dropWhile_space_cons_space (R : Line) :
    List.dropWhile pyIsSpace (' ' :: R) = List.dropWhile pyIsSpace R := by
  rw [List.dropWhile_cons, if_pos (by decide : pyIsSpace ' ' = true)]

theorem takeWhile_space_cons_space (R : Line) :
    List.takeWhile pyIsSpace (' ' :: R) = ' ' :: List.takeWhile pyIsSpace R := by
  rw [List.takeWhile_cons, if_pos (by decide : pyIsSpace ' ' = true)]

theorem expectLit_Mode (T : Line) :
    expectLit (lit "Mode") ('M' :: 'o' :: 'd' :: 'e' :: T) = some T := by
  rw [show ('M' :: 'o' :: 'd' :: 'e' :: T : Line) = lit "Mode" ++ T from rfl]
  exact expectLit_self _ _

theorem expectLit_cm1 (T : Line) :
    expectLit (lit "cm-1") ('c' :: 'm' :: '-' :: '1' :: T) = some T := by
  rw [show ('c' :: 'm' :: '-' :: '1' :: T : Line) = lit "cm-1" ++ T from rfl]
  exact expectLit_self _ _

theorem expectLit_IR (T : Line) :
    expectLit (lit "(IR:") ('(' :: 'I' :: 'R' :: ':' :: T) = some T := by
  rw [show ('(' :: 'I' :: 'R' :: ':' :: T : Line) = lit "(IR:" ++ T from rfl]
  exact expectLit_self _ _

/-- The merger's emitted header line parses back under the shared
mode-header pattern, recovering the mode number and the two formatted
captures. -/
theorem matchModeHeader_emitLine (vm : ℕ) (freq irv : ℚ) :
    matchModeHeader (emitLine vm freq irv) = some (vm, format2 freq, format2 irv) := by
  obtain ⟨dc, dcs, hD, hDd⟩ := natToChars_cons vm
  obtain ⟨ac, acs, hA, hAd⟩ := format2_head freq
  obtain ⟨bc, bcs, hB, hBd⟩ := format2_head irv
  have hDall : ∀ c ∈ dc :: dcs, c.isDigit = true := by rw [← hD]; exact natToChars_all_digit vm
  have hAall : ∀ c ∈ ac :: acs, isDigitDot c = true := by rw [← hA]; exact format2_all_digitDot freq
  have hBall : ∀ c ∈ bc :: bcs, isDigitDot c = true := by rw [← hB]; exact format2_all_digitDot irv
  have nds : pyIsSpace dc = false := isDigit_not_space hDd
  have nas : pyIsSpace ac = false := isDigit_not_space hAd
  have nbs : pyIsSpace bc = false := isDigit_not_space hBd
  have he : emitLine vm freq irv =
      'M' :: 'o' :: 'd' :: 'e' :: ' ' :: ((dc :: dcs) ++
        (':' :: ' ' :: ' ' :: ((ac :: acs) ++
          (' ' :: 'c' :: 'm' :: '-' :: '1' :: ' ' :: '(' :: 'I' :: 'R' :: ':' :: ' ' ::
            ((bc :: bcs) ++ [')']))))) := by
    rw [← hD, ← hA, ← hB]
    simp only [emitLine, List.append_assoc]
    rfl
  have dD : ∀ R : Line, List.dropWhile pyIsSpace (dc :: R) = dc :: R :=
    fun R => dropWhile_cons_neg nds R
  have tD0 : ∀ R : Line, List.takeWhile pyIsSpace (dc :: R) = [] :=
    fun R => takeWhile_cons_neg nds R
  have dA0 : ∀ R : Line, List.dropWhile pyIsSpace (ac :: R) = ac :: R :=
    fun R => dropWhile_cons_neg nas R
  have dB0 : ∀ R : Line, List.dropWhile pyIsSpace (bc :: R) = bc :: R :=
    fun R => dropWhile_cons_neg nbs R
  have tokD : ∀ R : Line,
      List.takeWhile Char.isDigit (dc :: (dcs ++ ':' :: R)) = dc :: dcs := by
    intro R
    have := (takeWhile_token Char.isDigit (dc :: dcs) (':' :: R)
      hDall (Or.inr ⟨':', R, rfl, by decide⟩)).1
    simpa using this
  have dropD : ∀ R : Line,
      List.dropWhile Char.isDigit (dc :: (dcs ++ ':' :: R)) = ':' :: R := by
    intro R
    have := (takeWhile_token Char.isDigit (dc :: dcs) (':' :: R)
      hDall (Or.inr ⟨':', R, rfl, by decide⟩)).2
    simpa using this
  have tokA : ∀ R : Line,
      List.takeWhile isDigitDot (ac :: (acs ++ ' ' :: R)) = ac :: acs := by
    intro R
    have := (takeWhile_token isDigitDot (ac :: acs) (' ' :: R)
      hAall (Or.inr ⟨' ', R, rfl, by decide⟩)).1
    simpa using this
  have dropA : ∀ R : Line,
      List.dropWhile isDigitDot (ac :: (acs ++ ' ' :: R)) = ' ' :: R := by
    intro R
    have := (takeWhile_token isDigitDot (ac :: acs) (' ' :: R)
      hAall (Or.inr ⟨' ', R, rfl, by decide⟩)).2
    simpa using this
  have tokB : List.takeWhile isDigitDot (bc :: (bcs ++ [')'])) = bc :: bcs := by
    have := (takeWhile_token isDigitDot (bc :: bcs) [')']
      hBall (Or.inr ⟨')', [], rfl, by decide⟩)).1
    simpa using this
  have dropB : List.dropWhile isDigitDot (bc :: (bcs ++ [')'])) = [')'] := by
    have := (takeWhile_token isDigitDot (bc :: bcs) [')']
      hBall (Or.inr ⟨')', [], rfl, by decide⟩)).2
    simpa using this
  have hval : digitsToNat (dc :: dcs) = vm := by rw [← hD, digitsToNat_natToChars]
  rw [he, hA, hB]
  simp only [matchModeHeader, List.cons_append,
    dropWhile_cons_neg (show pyIsSpace 'M' = false by decide),
    expectLit_Mode, takeWhile_space_cons_space, dropWhile_space_cons_space,
    dD, tD0, dA0, dB0, tokD, dropD, tokA, dropA, tokB, dropB,
    dropWhile_cons_neg (show pyIsSpace 'c' = false by decide),
    dropWhile_cons_neg (show pyIsSpace '(' = false by decide),
    expectLit_cm1, expectLit_IR, hval]
  simp

theorem parseAlignedNma_emitLine (vm : ℕ) (freq irv : ℚ) :
    parseAlignedNma [emitLine vm freq irv] =
      .ok [⟨vm, ((cents freq).toNat : ℚ) / 100, ((cents irv).toNat : ℚ) / 100, []⟩] := by
  unfold parseAlignedNma
  rw [List.foldlM_cons]
  have h1 : paStep [] (emitLine vm freq irv) =
      .ok [⟨vm, ((cents freq).toNat : ℚ) / 100, ((cents irv).toNat : ℚ) / 100, []⟩] := by
    simp only [paStep, matchModeHeader_emitLine, pyFloatDD_format2]
  rw [h1, exceptBind_ok, List.foldlM_nil]
  rfl

/-- C4: round trip — the report parser applied to a line the merger emits
recovers a ModeRecord whose frequency and intensity agree with the
merger's injected values to two-decimal precision (formatting either side
to two decimals yields the same text). -/
theorem claim_C4_theorem (vm : ℕ) (freq irv : ℚ) :
    ∃ f i : ℚ,
      parseAlignedNma [emitLine vm freq irv] = .ok [⟨vm, f, i, []⟩] ∧
      format2 f = format2 freq ∧ format2 i = format2 irv :=
  ⟨((cents freq).toNat : ℚ) / 100, ((cents irv).toNat : ℚ) / 100,
    parseAlignedNma_emitLine vm freq irv, format2_roundtrip freq, format2_roundtrip irv⟩
